import Mathlib

/-!
A verification development for the dti.py rendering core (`dti/models.py`):
pose-fallback resolution (`Neopet.valid_poses`), item conflict resolution
(`Neopet._render_items`), layer ordering and visibility filtering
(`Neopet._render_layers`), and the compositing loop (`Neopet.render`).

Machine integers are modelled as `Nat` (Python ints are unbounded, and the
bitmask operations here never go negative).  Python object equality for the
domain entities comes from the `mixins.Object` base class, which compares two
objects of the same class by their `id` field; zone/item membership tests and
`list.remove` therefore compare by `id` below.  Fallible operations return
`Except`.
-/

namespace DTI

/-- `Zone` from `dti/models.py`: an identified visual region with a stacking
depth and a label. -/
structure Zone where
  id : Nat
  depth : Nat
  label : String
deriving DecidableEq, Repr

/-- `AppearanceLayer` from `dti/models.py`.  The fields that play no role in
the rendering algorithms (`asset_type`, `asset_remote_id`) are omitted. -/
structure AppearanceLayer where
  id : Nat
  zone : Zone
  image_url : String
deriving DecidableEq, Repr

/-- `ItemAppearance` from `dti/models.py`: the layers an item contributes and
the zones it restricts. -/
structure ItemAppearance where
  layers : List AppearanceLayer
  restricted_zones : List Zone
deriving DecidableEq, Repr

/-- `ItemAppearance.occupies`: the zones of each layer of the appearance. -/
def ItemAppearance.occupies (a : ItemAppearance) : List Zone :=
  a.layers.map (fun layer => layer.zone)

/-- `Item` from `dti/models.py`, restricted to the fields the rendering core
reads.  `_render_items` dereferences `item.appearance` unconditionally, so the
appearance is total here (items lacking appearance data are excluded
upstream). -/
structure Item where
  id : Nat
  appearance : ItemAppearance
deriving DecidableEq, Repr

/-- `PetAppearance` from `dti/models.py`, restricted to the fields
`_render_layers` reads.  The pose is the numeric value of the `PetPose`
flag. -/
structure PetAppearance where
  pose : Nat
  layers : List AppearanceLayer
  restricted_zones : List Zone
deriving DecidableEq, Repr

/-- Python `z in zs` / set membership for zones.  Modelled from the spec:
`mixins.Object.__eq__` (file not under `src/`) compares same-class objects by
`id`; the spec states zone identity is comparable by id, never by depth. -/
def zoneIdMem (z : Zone) (zs : List Zone) : Bool :=
  zs.any (fun w => w.id == z.id)

/-- Python `set(xs).intersection(ys)` is non-empty: some zone of `xs` has the
id of some zone of `ys`. -/
def zonesIntersect (xs ys : List Zone) : Bool :=
  xs.any (fun z => zoneIdMem z ys)

/-- Python `temp in temp_items` for items: membership by item id. -/
def idMem (n : Nat) (xs : List Item) : Bool :=
  xs.any (fun x => x.id == n)

/-- Python `temp_items.remove(temp)`: drop the first element equal to `temp`,
where equality is by item id. -/
def removeFirst (n : Nat) : List Item → List Item
  | [] => []
  | x :: xs => if x.id == n then xs else x :: removeFirst n xs

/-- The conflict test of `Neopet._render_items` (lines 403-410):
`intersect_1 = set(item.occupies) ∩ (temp.occupies + temp.restricted_zones)`,
`intersect_2 = set(temp.occupies) ∩ (item.occupies + item.restricted_zones)`;
the pair conflicts when either is non-empty. -/
def conflicts (item temp : Item) : Bool :=
  zonesIntersect item.appearance.occupies
      (temp.appearance.occupies ++ temp.appearance.restricted_zones)
    || zonesIntersect temp.appearance.occupies
      (item.appearance.occupies ++ item.appearance.restricted_zones)

/-- One step of the inner loop of `Neopet._render_items` (lines 396-411):
skip `temp` when it is the current item (`item == temp`, id equality), skip
it when it is not currently retained, otherwise evict it on conflict. -/
def innerStep (item : Item) (tmp : List Item) (temp : Item) : List Item :=
  if temp.id == item.id then tmp
  else if !(idMem temp.id tmp) then tmp
  else if conflicts item temp then removeFirst temp.id tmp
  else tmp

/-- `Neopet._render_items` (lines 392-414) as a function of the item list:
the outer loop walks the items, the inner loop walks the same full list
mutating `temp_items`, and the current item is appended afterwards. -/
def render_items (items : List Item) : List Item :=
  items.foldl (fun acc item => (items.foldl (innerStep item) acc) ++ [item]) []

/-- Follows the spec's words (§4.2), for comparison with `render_items`: the
reference ConflictResolver is an ordered-accumulator pass where each incoming
item `i` evicts every retained `t` with `conflict i t` and is then appended
unconditionally. -/
def resolve_spec (items : List Item) : List Item :=
  items.foldl (fun acc i => acc.filter (fun t => !(conflicts i t)) ++ [i]) []

/-- `Neopet`, restricted to the fields the rendering core reads.  Poses are
the numeric values of the `PetPose` integer flag (`enums.py` is not under
`src/`); `valid_poses_mask` is the `_valid_poses` capability bitmask.
`closest_poses` models `constants.CLOSEST_POSES_IN_ORDER` (`constants.py` is
not under `src/`), which the spec describes as a fixed table of
closeness-ordered fallback poses — domain data, kept abstract here. -/
structure Neopet where
  species_id : Nat
  color_id : Nat
  pose : Nat
  valid_poses_mask : Nat
  closest_poses : Nat → List Nat
  appearances : List PetAppearance
  items : List Item

/-- `Neopet.check` (line 383): a pose is valid iff its bits are contained in
the capability mask, `(self._valid_poses & pose) == pose`. -/
def Neopet.check (pet : Neopet) (pose : Nat) : Bool :=
  pet.valid_poses_mask &&& pose == pose

/-- Python's falsy-or in `pose = override_pose or self.pose` (lines 389 and
462): a missing override and an override equal to the zero flag both fall
back to the pet's own pose. -/
def Neopet.effective_pose (pet : Neopet) (override_pose : Option Nat) : Nat :=
  match override_pose with
  | none => pet.pose
  | some p => if p == 0 then pet.pose else p

/-- `Neopet.valid_poses` (lines 387-390): the fallback table's entry for the
(effective) pose, filtered by `check`, in table order. -/
def Neopet.valid_poses (pet : Neopet) (override_pose : Option Nat) : List Nat :=
  (pet.closest_poses (pet.effective_pose override_pose)).filter
    (fun p => pet.check p)

/-- `Neopet.get_pet_appearance` (lines 376-381): the first appearance whose
pose equals the given pose, if any. -/
def Neopet.get_pet_appearance (pet : Neopet) (pose : Nat) : Option PetAppearance :=
  pet.appearances.find? (fun a => a.pose == pose)

/-- The concatenation step of `Neopet._render_layers` (lines 437-443): the
base appearance's layers followed by each resolved item's layers, in item
order. -/
def all_layers (pa : PetAppearance) (resolved : List Item) : List AppearanceLayer :=
  pa.layers ++ (resolved.map (fun it => it.appearance.layers)).flatten

/-- The combined restricted-zone set of `Neopet._render_layers` (lines
439-447): every resolved item's restricted zones plus the base appearance's
restricted zones. -/
def all_restricted_zones (pa : PetAppearance) (resolved : List Item) : List Zone :=
  (resolved.map (fun it => it.appearance.restricted_zones)).flatten
    ++ pa.restricted_zones

/-- The visibility filter of `Neopet._render_layers` (lines 449-451): keep
the layers whose zone is not in the combined restricted set (zone membership
by id). -/
def visible_layers (pa : PetAppearance) (resolved : List Item) : List AppearanceLayer :=
  (all_layers pa resolved).filter
    (fun layer => !(zoneIdMem layer.zone (all_restricted_zones pa resolved)))

/-- The sort key relation of `Neopet._render_layers` (line 453):
`sorted(..., key=lambda layer: layer.zone.depth)`. -/
def depthLE (a b : AppearanceLayer) : Prop :=
  a.zone.depth ≤ b.zone.depth

instance : DecidableRel depthLE :=
  fun a b => Nat.decLe a.zone.depth b.zone.depth

instance : IsTotal AppearanceLayer depthLE :=
  ⟨fun a b => Nat.le_total a.zone.depth b.zone.depth⟩

instance : IsTrans AppearanceLayer depthLE :=
  ⟨fun _ _ _ hab hbc => Nat.le_trans hab hbc⟩

/-- The ordering step of `Neopet._render_layers` (lines 437-453) as a
function of the selected base appearance and the conflict-resolved items.
Python's `sorted` is a stable sort, modelled by the (stable) insertion
sort. -/
def order_layers (pa : PetAppearance) (resolved : List Item) : List AppearanceLayer :=
  (visible_layers pa resolved).insertionSort depthLE

/-- The errors of the rendering core.  `MissingPetAppearance` and
`BrokenAssetImage` (from `errors.py`, not under `src/`) carry only their
message string; `unboundLocalForeground` models the Python
`UnboundLocalError` raised when the `finally` block of `Neopet.render` reads
`foreground` before any layer has been decoded. -/
inductive RenderError where
  | missingPetAppearance (message : String)
  | brokenAssetImage (message : String)
  | unboundLocalForeground
deriving DecidableEq, Repr

/-- The message of line 425: raised when no pose is valid. -/
def msg_no_poses (species_id color_id : Nat) : String :=
  "Pet Appearance <\x22" ++ toString species_id ++ "-" ++ toString color_id
    ++ "\x22> does not exist with any poses."

/-- The message of line 434: raised when no appearance matches the resolved
pose. -/
def msg_no_appearance (species_id color_id : Nat) : String :=
  "Pet Appearance <\x22" ++ toString species_id ++ "-" ++ toString color_id
    ++ "\x22> does not exist."

/-- The message of line 490 (the `!r` reprs are abbreviated to the
identifying ids). -/
def msg_broken_asset (species_id color_id pose layer_id : Nat) : String :=
  "Layer image broken: <Data species=" ++ toString species_id
    ++ " color=" ++ toString color_id ++ " pose=" ++ toString pose
    ++ " layer=" ++ toString layer_id ++ ">"

/-- `Neopet._render_layers` (lines 416-453): resolve the pose, look up the
appearance, resolve item conflicts, then concatenate, filter and sort the
layers. -/
def Neopet.render_layers (pet : Neopet) (override_pose : Option Nat) :
    Except RenderError (List AppearanceLayer) :=
  match pet.valid_poses override_pose with
  | [] => .error (.missingPetAppearance (msg_no_poses pet.species_id pet.color_id))
  | pose :: _ =>
    match pet.get_pet_appearance pose with
    | none =>
        .error (.missingPetAppearance (msg_no_appearance pet.species_id pet.color_id))
    | some pa => .ok (order_layers pa (render_items pet.items))

/-- A decoded PIL image, abstracted to its pixel mode (a Python string such
as `"1"`, `"RGBA"`, `"P"`) and a tag standing for its pixel content. -/
structure PILImage where
  mode : String
  tag : String
deriving DecidableEq, Repr

/-- The outcome of fetching a layer's bytes and handing them to
`Image.open`: either the bytes decode to an image, or decoding raises. -/
inductive AssetData where
  | broken
  | decodes (img : PILImage)
deriving DecidableEq, Repr

/-- `foreground.convert("RGBA")` when the mode is not already `"RGBA"`. -/
def toRGBA (img : PILImage) : PILImage :=
  if img.mode == "RGBA" then img else { img with mode := "RGBA" }

/-- The loop-carried state of the blend loop of `Neopet.render` (lines
484-497): the canvas, modelled as the stack of images composited so far, and
the Python local variable `foreground` (`none` while still unbound). -/
structure BlendState where
  canvas : List PILImage
  foreground : Option PILImage
deriving DecidableEq, Repr

/-- One iteration of the blend loop of `Neopet.render` (lines 484-497), with
Python ≥ 3.8 `try/except/finally` semantics.  When decoding succeeds, the
`finally` block skips mode-`"1"` images and composites the rest.  When
decoding raises, the `except` block raises `BrokenAssetImage`, and the
`finally` block then runs with `foreground` still holding the PREVIOUS
layer's image: if that previous image is unbound the block raises
`UnboundLocalError` instead; if its mode is `"1"` the `continue` statement
DISCARDS the in-flight `BrokenAssetImage` and the loop moves on; otherwise
the previous image is composited a second time and `BrokenAssetImage`
finally propagates (the canvas is then discarded with the raise). -/
def blendStep (species_id color_id pose : Nat) (st : BlendState)
    (la : AppearanceLayer × AssetData) : Except RenderError BlendState :=
  match la.2 with
  | .decodes img =>
    if img.mode == "1" then .ok { st with foreground := some img }
    else
      .ok { canvas := st.canvas ++ [toRGBA img], foreground := some (toRGBA img) }
  | .broken =>
    match st.foreground with
    | none => .error .unboundLocalForeground
    | some fg =>
      if fg.mode == "1" then .ok st
      else .error (.brokenAssetImage (msg_broken_asset species_id color_id pose la.1.id))

/-- `Neopet.render` (lines 455-500): resolve the layers, fetch every layer's
bytes (concurrently in the source; the gather preserves layer order, so it is
modelled by pairing each layer with `fetch layer.image_url`), then run the
blend loop and deliver the canvas.  Canvas allocation and PNG encoding are
not modelled; the delivered value is the stack of composited images. -/
def Neopet.render (pet : Neopet) (fetch : String → AssetData)
    (override_pose : Option Nat) : Except RenderError (List PILImage) := do
  let pose := pet.effective_pose override_pose
  let layers ← pet.render_layers (some pose)
  let pairs := layers.map (fun layer => (layer, fetch layer.image_url))
  let st ← pairs.foldlM (blendStep pet.species_id pet.color_id pose)
    ⟨[], none⟩
  return st.canvas

/-- Leading-segment test on character lists, for stating which identifiers a
message string carries. -/
def charsAgree : List Char → List Char → Bool
  | [], _ => true
  | _ :: _, [] => false
  | a :: as, b :: bs => a == b && charsAgree as bs

/-- Substring test on character lists. -/
def charsSomewhere (sub : List Char) : List Char → Bool
  | [] => sub.isEmpty
  | b :: bs => charsAgree sub (b :: bs) || charsSomewhere sub bs

/-- `mentions s sub`: the string `s` contains `sub` as a substring; used to
state that an error message carries (or fails to carry) an identifier. -/
def mentions (s sub : String) : Bool :=
  charsSomewhere sub.data s.data

/-! Concrete inputs used by witnesses and counterexamples. -/

def zoneA : Zone := ⟨1, 10, "hat"⟩

def zoneB : Zone := ⟨2, 20, "wig"⟩

/-- An item occupying `zoneA`. -/
def itemA : Item := ⟨1, ⟨[⟨11, zoneA, "urlA"⟩], []⟩⟩

/-- A second item occupying `zoneA`; conflicts with `itemA`. -/
def itemB : Item := ⟨2, ⟨[⟨12, zoneA, "urlB"⟩], []⟩⟩

/-- A third item occupying `zoneA`. -/
def itemC : Item := ⟨3, ⟨[⟨13, zoneA, "urlC"⟩], []⟩⟩

/-- Shares item id 7 with `itemSameId2` but occupies `zoneA`. -/
def itemSameId1 : Item := ⟨7, ⟨[⟨71, zoneA, "url71"⟩], []⟩⟩

/-- Shares item id 7 with `itemSameId1` but occupies `zoneB`. -/
def itemSameId2 : Item := ⟨7, ⟨[⟨72, zoneB, "url72"⟩], []⟩⟩

/-- Occupies `zoneB`; conflicts with `itemSameId2` but not `itemSameId1`. -/
def itemLater : Item := ⟨8, ⟨[⟨81, zoneB, "url81"⟩], []⟩⟩

/-- Shares item id 9 with `itemQ2` and occupies `zoneA`. -/
def itemQ1 : Item := ⟨9, ⟨[⟨91, zoneA, "url91"⟩], []⟩⟩

/-- Shares item id 9 with `itemQ1`; occupies `zoneA` and `zoneB`. -/
def itemQ2 : Item := ⟨9, ⟨[⟨92, zoneA, "url92"⟩, ⟨93, zoneB, "url93"⟩], []⟩⟩

/-- A pet with no appearances whose capability mask admits no pose at all:
its pose resolution is empty, so `render_layers` raises. -/
def petNoPoses : Neopet :=
  ⟨1, 2, 64, 0, fun p => [p], [], []⟩

/-- A base appearance for the compositing scenario: three unrestricted
layers at increasing depths. -/
def paComposite : PetAppearance :=
  ⟨1, [⟨21, ⟨3, 10, "bg"⟩, "url-bg"⟩, ⟨22, ⟨4, 20, "mask"⟩, "url-mask"⟩,
       ⟨23, ⟨5, 30, "fg"⟩, "url-fg"⟩], []⟩

/-- A pet whose only appearance is `paComposite`, with no items. -/
def petComposite : Neopet :=
  ⟨1, 2, 1, 1, fun p => [p], [paComposite], []⟩

/-- Fetch outcomes for `petComposite`: the first layer decodes to an RGBA
image, the second to a degenerate 1-bit image, and the third layer's bytes
fail to decode. -/
def fetchComposite : String → AssetData := fun url =>
  if url == "url-bg" then .decodes ⟨"RGBA", "bg-pixels"⟩
  else if url == "url-mask" then .decodes ⟨"1", "mask-bits"⟩
  else .broken

/-- A body layer in `zoneA`. -/
def layerHat : AppearanceLayer := ⟨31, zoneA, "url31"⟩

/-- A base appearance that contributes a `zoneA` layer and restricts
`zoneB`. -/
def paRestricting : PetAppearance :=
  ⟨1, [layerHat], [zoneB]⟩

/-- A pet whose capability mask rejects every candidate pose. -/
def petNoBits : Neopet :=
  ⟨3, 4, 1, 0, fun _ => [1, 2, 4], [], []⟩

/-! ### Helper lemmas on the conflict-resolution pass -/

theorem removeFirst_sublist (n : Nat) (xs : List Item) :
    (removeFirst n xs).Sublist xs := by
  induction xs with
  | nil => exact List.Sublist.refl _
  | cons x xs ih =>
    by_cases h : x.id == n
    · rw [removeFirst, if_pos h]
      exact List.Sublist.cons x (List.Sublist.refl xs)
    · simpa [removeFirst, h] using List.Sublist.cons₂ x ih

theorem idMem_false_iff (n : Nat) (xs : List Item) :
    idMem n xs = false ↔ ∀ x ∈ xs, x.id ≠ n := by
  simp [idMem]

theorem idMem_false_of_sublist {m : Nat} {r xs : List Item}
    (hs : r.Sublist xs) (h : idMem m xs = false) : idMem m r = false := by
  rw [idMem_false_iff] at h ⊢
  exact fun x hx => h x (hs.subset hx)

theorem not_idMem_removeFirst (n : Nat) (xs : List Item)
    (h : (xs.map Item.id).Nodup) : idMem n (removeFirst n xs) = false := by
  induction xs with
  | nil => rfl
  | cons x xs ih =>
    rw [List.map_cons, List.nodup_cons] at h
    by_cases hb : x.id == n
    · have hxn : x.id = n := by simpa using hb
      simp only [removeFirst, hb, if_pos]
      rw [idMem_false_iff]
      intro y hy hyn
      have : x.id ∈ xs.map Item.id := by
        rw [hxn, ← hyn]
        exact List.mem_map_of_mem Item.id hy
      exact absurd this h.1
    · simp only [removeFirst, hb, if_neg]
      rw [idMem_false_iff]
      intro y hy hyn
      rcases List.mem_cons.mp hy with rfl | hy'
      · exact absurd (by simpa using hyn) (by simpa using hb)
      · exact (idMem_false_iff n _).mp (ih h.2) y hy' hyn

theorem innerStep_cases (i : Item) (tmp : List Item) (t : Item) :
    innerStep i tmp t = tmp ∨ innerStep i tmp t = removeFirst t.id tmp := by
  unfold innerStep
  by_cases h1 : t.id == i.id
  · simp [h1]
  · by_cases h2 : idMem t.id tmp
    · by_cases h3 : conflicts i t
      · simp [h1, h2, h3]
      · simp [h1, h2, h3]
    · simp [h1, h2]

theorem innerStep_sublist (i : Item) (tmp : List Item) (t : Item) :
    (innerStep i tmp t).Sublist tmp := by
  rcases innerStep_cases i tmp t with h | h
  · rw [h]
  · rw [h]; exact removeFirst_sublist t.id tmp

theorem innerFold_sublist (i : Item) (L acc : List Item) :
    (List.foldl (innerStep i) acc L).Sublist acc := by
  induction L generalizing acc with
  | nil => exact List.Sublist.refl _
  | cons x xs ih =>
    rw [List.foldl_cons]
    exact (ih (innerStep i acc x)).trans (innerStep_sublist i acc x)

theorem innerFold_nil (i : Item) (L : List Item) :
    List.foldl (innerStep i) [] L = [] :=
  List.sublist_nil.mp (innerFold_sublist i L [])

theorem removeFirst_cons_of_ne (n : Nat) (x : Item) (xs : List Item)
    (h : (x.id == n) = false) :
    removeFirst n (x :: xs) = x :: removeFirst n xs := by
  simp [removeFirst, h]

theorem innerFold_cons_of_not_mem (i x : Item) (L tmp : List Item)
    (hx : x.id ∉ L.map Item.id) :
    List.foldl (innerStep i) (x :: tmp) L = x :: List.foldl (innerStep i) tmp L := by
  induction L generalizing tmp with
  | nil => rfl
  | cons b bs ih =>
    have hxb : (x.id == b.id) = false := by
      rw [beq_eq_false_iff_ne]
      exact fun h => hx (by simp [h])
    have hx' : x.id ∉ bs.map Item.id := fun h => hx (by simp [h])
    rw [List.foldl_cons, List.foldl_cons]
    by_cases h1 : b.id == i.id
    · rw [show innerStep i (x :: tmp) b = x :: tmp by simp [innerStep, h1],
        show innerStep i tmp b = tmp by simp [innerStep, h1]]
      exact ih tmp hx'
    · have hmem : idMem b.id (x :: tmp) = idMem b.id tmp := by
        simp [idMem, List.any_cons, hxb]
      by_cases h2 : idMem b.id tmp
      · by_cases h3 : conflicts i b
        · rw [show innerStep i (x :: tmp) b = x :: removeFirst b.id tmp by
            simp [innerStep, h1, hmem, h2, h3,
              removeFirst_cons_of_ne b.id x tmp hxb],
            show innerStep i tmp b = removeFirst b.id tmp by
              simp [innerStep, h1, h2, h3]]
          exact ih _ hx'
        · rw [show innerStep i (x :: tmp) b = x :: tmp by
            simp [innerStep, h1, hmem, h2, h3],
            show innerStep i tmp b = tmp by simp [innerStep, h1, h2, h3]]
          exact ih tmp hx'
      · rw [show innerStep i (x :: tmp) b = x :: tmp by
          simp [innerStep, h1, hmem, h2],
          show innerStep i tmp b = tmp by simp [innerStep, h1, h2]]
        exact ih tmp hx'

theorem innerFold_eq_filter (i : Item) (L : List Item) :
    ∀ acc : List Item, acc.Sublist L → (L.map Item.id).Nodup →
    idMem i.id acc = false →
    List.foldl (innerStep i) acc L = acc.filter (fun t => !(conflicts i t)) := by
  induction L with
  | nil =>
    intro acc hs _ _
    rw [List.sublist_nil.mp hs]; rfl
  | cons x xs ih =>
    intro acc hs hnd hi
    rw [List.map_cons, List.nodup_cons] at hnd
    cases hs with
    | cons _ hs' =>
      rw [List.foldl_cons]
      have hstep : innerStep i acc x = acc := by
        by_cases h1 : x.id == i.id
        · simp [innerStep, h1]
        · have h2 : idMem x.id acc = false := by
            rw [idMem_false_iff]
            intro y hy hyx
            exact hnd.1 (hyx ▸ List.mem_map_of_mem Item.id (hs'.subset hy))
          simp [innerStep, h1, h2]
      rw [hstep]
      exact ih acc hs' hnd.2 hi
    | cons₂ _ hs' =>
      rename_i ts
      have hix : (x.id == i.id) = false := by
        have := (idMem_false_iff i.id (x :: ts)).mp hi x (List.mem_cons_self x ts)
        rwa [beq_eq_false_iff_ne]
      have hits : idMem i.id ts = false := by
        rw [idMem_false_iff]
        exact fun y hy => (idMem_false_iff i.id (x :: ts)).mp hi y
          (List.mem_cons_of_mem x hy)
      have hmem : idMem x.id (x :: ts) = true := by
        simp [idMem]
      rw [List.foldl_cons]
      by_cases h3 : conflicts i x
      · rw [show innerStep i (x :: ts) x = ts by
          simp [innerStep, hix, hmem, h3, removeFirst]]
        rw [ih ts hs' hnd.2 hits, List.filter_cons, h3]
        simp
      · rw [show innerStep i (x :: ts) x = x :: ts by
          simp [innerStep, hix, hmem, h3]]
        rw [innerFold_cons_of_not_mem i x xs ts hnd.1, ih ts hs' hnd.2 hits]
        simp [List.filter_cons, h3]

theorem renderFold_eq_specFold (items : List Item)
    (hnd : (items.map Item.id).Nodup) :
    ∀ (rest done acc : List Item), items = done ++ rest → acc.Sublist done →
    List.foldl (fun acc item => List.foldl (innerStep item) acc items ++ [item]) acc rest
      = List.foldl (fun acc i => acc.filter (fun t => !(conflicts i t)) ++ [i]) acc rest := by
  intro rest
  induction rest with
  | nil => intro done acc _ _; rfl
  | cons i rest' ih =>
    intro done acc heq hs
    have hsub_items : acc.Sublist items := by
      rw [heq]
      exact hs.trans (List.sublist_append_left done (i :: rest'))
    have hi_not_done : i.id ∉ done.map Item.id := by
      have hnd' : ((done ++ i :: rest').map Item.id).Nodup := heq ▸ hnd
      rw [List.map_append, List.nodup_append] at hnd'
      intro hmem
      exact hnd'.2.2 hmem (by simp)
    have hi : idMem i.id acc = false := by
      rw [idMem_false_iff]
      intro y hy hyi
      exact hi_not_done (hyi ▸ List.mem_map_of_mem Item.id (hs.subset hy))
    rw [List.foldl_cons, List.foldl_cons,
      innerFold_eq_filter i items acc hsub_items hnd hi]
    apply ih (done ++ [i])
    · rw [heq, List.append_cons]
    · exact List.Sublist.append ((List.filter_sublist acc).trans hs)
        (List.Sublist.refl [i])

theorem render_items_eq_resolve_spec (items : List Item)
    (hnd : (items.map Item.id).Nodup) :
    render_items items = resolve_spec items := by
  unfold render_items resolve_spec
  exact renderFold_eq_specFold items hnd items [] [] rfl (List.nil_sublist [])

theorem renderFold_sublist (items : List Item) :
    ∀ (rest done acc : List Item), acc.Sublist done →
    (List.foldl (fun acc item => List.foldl (innerStep item) acc items ++ [item])
      acc rest).Sublist (done ++ rest) := by
  intro rest
  induction rest with
  | nil => intro done acc hs; simpa using hs
  | cons i rest' ih =>
    intro done acc hs
    rw [List.foldl_cons,
      show done ++ i :: rest' = (done ++ [i]) ++ rest' from List.append_cons done i rest']
    exact ih (done ++ [i]) _
      (List.Sublist.append ((innerFold_sublist i items acc).trans hs)
        (List.Sublist.refl [i]))

theorem render_items_sublist (items : List Item) :
    (render_items items).Sublist items := by
  unfold render_items
  simpa using renderFold_sublist items items [] [] (List.nil_sublist [])

theorem conflicts_symm (a b : Item) : conflicts a b = conflicts b a :=
  Bool.or_comm _ _

theorem specFold_pairwise :
    ∀ (rest acc : List Item),
    acc.Pairwise (fun t u => conflicts t u = false) →
    (List.foldl (fun acc i => acc.filter (fun t => !(conflicts i t)) ++ [i])
      acc rest).Pairwise (fun t u => conflicts t u = false) := by
  intro rest
  induction rest with
  | nil => intro acc h; exact h
  | cons i rest' ih =>
    intro acc h
    rw [List.foldl_cons]
    apply ih
    rw [List.pairwise_append]
    refine ⟨h.filter _, List.pairwise_singleton _ i, ?_⟩
    intro a ha b hb
    rw [List.mem_singleton.mp hb]
    have := (List.mem_filter.mp ha).2
    rw [conflicts_symm]
    simpa using this

theorem resolve_spec_pairwise (items : List Item) :
    (resolve_spec items).Pairwise (fun t u => conflicts t u = false) :=
  specFold_pairwise items [] List.Pairwise.nil

theorem specFold_fixed :
    ∀ (rest acc : List Item),
    (∀ u ∈ rest, ∀ t ∈ acc, conflicts u t = false) →
    rest.Pairwise (fun t u => conflicts t u = false) →
    List.foldl (fun acc i => acc.filter (fun t => !(conflicts i t)) ++ [i])
      acc rest = acc ++ rest := by
  intro rest
  induction rest with
  | nil => intro acc _ _; simp
  | cons i rest' ih =>
    intro acc hcross hp
    rw [List.pairwise_cons] at hp
    rw [List.foldl_cons]
    have hfil : acc.filter (fun t => !(conflicts i t)) = acc := by
      rw [List.filter_eq_self]
      intro t ht
      simpa using hcross i (List.mem_cons_self i rest') t ht
    rw [hfil,
      show acc ++ i :: rest' = (acc ++ [i]) ++ rest' from List.append_cons acc i rest']
    apply ih (acc ++ [i]) _ hp.2
    intro u hu t ht
    rcases List.mem_append.mp ht with ht' | ht'
    · exact hcross u (List.mem_cons_of_mem i hu) t ht'
    · rw [List.mem_singleton.mp ht', conflicts_symm]
      exact hp.1 u hu

theorem resolve_spec_fixed (l : List Item)
    (hp : l.Pairwise (fun t u => conflicts t u = false)) :
    resolve_spec l = l := by
  unfold resolve_spec
  simpa using specFold_fixed l [] (by simp) hp

theorem zonesIntersect_append_left (xs ys zs : List Zone)
    (h : zonesIntersect xs ys = true) : zonesIntersect xs (ys ++ zs) = true := by
  simp only [zonesIntersect, zoneIdMem, List.any_eq_true] at h ⊢
  obtain ⟨z, hz, w, hw, hwz⟩ := h
  exact ⟨z, hz, w, List.mem_append.mpr (Or.inl hw), hwz⟩

theorem conflicts_of_overlap (A B : Item)
    (h : zonesIntersect A.appearance.occupies B.appearance.occupies = true) :
    conflicts B A = true := by
  unfold conflicts
  rw [Bool.or_eq_true]
  exact Or.inr (zonesIntersect_append_left _ _ _ h)

theorem specFold_not_mem (A : Item) :
    ∀ (rest acc : List Item), A ∉ acc → (∀ x ∈ rest, x.id ≠ A.id) →
    A ∉ List.foldl (fun acc i => acc.filter (fun t => !(conflicts i t)) ++ [i])
      acc rest := by
  intro rest
  induction rest with
  | nil => intro acc h _; exact h
  | cons i rest' ih =>
    intro acc h hx
    rw [List.foldl_cons]
    apply ih
    · intro hmem
      rcases List.mem_append.mp hmem with hf | hB
      · exact h ((List.filter_sublist acc).subset hf)
      · exact hx i (List.mem_cons_self i rest')
          (by rw [List.mem_singleton.mp hB])
    · exact fun x hx' => hx x (List.mem_cons_of_mem i hx')

theorem resolve_spec_drop (l1 l2 l3 : List Item) (A B : Item)
    (hABid : A.id ≠ B.id) (hl3 : ∀ x ∈ l3, x.id ≠ A.id)
    (hc : conflicts B A = true) :
    A ∉ resolve_spec (l1 ++ A :: (l2 ++ B :: l3)) := by
  unfold resolve_spec
  have hsplit : l1 ++ A :: (l2 ++ B :: l3) = ((l1 ++ A :: l2) ++ [B]) ++ l3 := by
    simp
  rw [hsplit, List.foldl_append, List.foldl_append, List.foldl_cons, List.foldl_nil]
  apply specFold_not_mem A l3 _ _ hl3
  intro hmem
  rcases List.mem_append.mp hmem with hf | hB
  · have := (List.mem_filter.mp hf).2
    rw [hc] at this
    simp at this
  · exact hABid (by rw [List.mem_singleton.mp hB])

/-! ### Claims C1, C2, C6, C7: the conflict-resolution pass -/

/-- C1 (amended): when A precedes B in the input and their occupied zones
overlap (item ids pairwise distinct), `_render_items` always drops A; B is
retained in particular on the two-element inputs, where swapping the input
order swaps which of the two survives. -/
theorem C1_later_item_wins (l1 l2 l3 : List Item) (A B : Item)
    (hnd : ((l1 ++ A :: (l2 ++ B :: l3)).map Item.id).Nodup)
    (hov : zonesIntersect A.appearance.occupies B.appearance.occupies = true) :
    A ∉ render_items (l1 ++ A :: (l2 ++ B :: l3))
    ∧ render_items [A, B] = [B] ∧ render_items [B, A] = [A] := by
  have hsubA : ((A :: (l2 ++ B :: l3)).map Item.id).Nodup :=
    List.Nodup.sublist
      (List.Sublist.map Item.id (List.sublist_append_right l1 _)) hnd
  rw [List.map_cons, List.nodup_cons] at hsubA
  have hAB : A.id ≠ B.id := by
    intro h
    exact hsubA.1 (by
      rw [h]
      exact List.mem_map_of_mem Item.id
        (List.mem_append.mpr (Or.inr (List.mem_cons_self B l3))))
  have hl3 : ∀ x ∈ l3, x.id ≠ A.id := by
    intro x hx h
    exact hsubA.1 (by
      rw [← h]
      exact List.mem_map_of_mem Item.id
        (List.mem_append.mpr (Or.inr (List.mem_cons_of_mem B hx))))
  have hcBA : conflicts B A = true := conflicts_of_overlap A B hov
  have hcAB : conflicts A B = true := by rw [conflicts_symm]; exact hcBA
  have hABb : (A.id == B.id) = false := beq_eq_false_iff_ne.mpr hAB
  have hBAb : (B.id == A.id) = false := beq_eq_false_iff_ne.mpr (Ne.symm hAB)
  refine ⟨?_, ?_, ?_⟩
  · rw [render_items_eq_resolve_spec _ hnd]
    exact resolve_spec_drop l1 l2 l3 A B hAB hl3 hcBA
  · simp [render_items, innerStep, idMem, removeFirst, hABb, hBAb, hcBA, hcAB]
    exact hAB
  · simp [render_items, innerStep, idMem, removeFirst, hABb, hBAb, hcBA, hcAB]
    exact Ne.symm hAB

/-- C1 counterexample: `itemA` precedes `itemB` and their occupied zones
overlap, yet `itemB` is NOT retained — a later conflicting item (`itemC`)
evicts it, refuting the claim's unconditional "retains B". -/
theorem C1_counterexample :
    zonesIntersect itemA.appearance.occupies itemB.appearance.occupies = true
    ∧ itemB ∉ render_items [itemA, itemB, itemC] := by
  decide

theorem C1_witness :
    itemA ∉ render_items [itemA, itemB]
    ∧ render_items [itemA, itemB] = [itemB]
    ∧ render_items [itemB, itemA] = [itemA] :=
  C1_later_item_wins [] [] [] itemA itemB (by decide) (by decide)

/-- C2 (amended): on inputs whose item ids are pairwise distinct, the
nested-iteration conflict scan of `_render_items` returns exactly the same
sequence as the spec's ordered-accumulator reference algorithm; on every
input (duplicates included) the output is a subsequence of the input, so
survivor order is preserved. -/
theorem C2_nested_scan_refines_reference (items : List Item) :
    ((items.map Item.id).Nodup → render_items items = resolve_spec items)
    ∧ (render_items items).Sublist items :=
  ⟨fun h => render_items_eq_resolve_spec items h, render_items_sublist items⟩

/-- C2 counterexample: on the duplicate input `[itemA, itemA]` the code's
self-skip (`item == temp`, id equality) retains both copies while the spec's
reference pass evicts the first, so the two algorithms disagree. -/
theorem C2_counterexample :
    render_items [itemA, itemA] ≠ resolve_spec [itemA, itemA] := by
  decide

theorem C2_witness :
    render_items [itemA, itemB] = resolve_spec [itemA, itemB] :=
  (C2_nested_scan_refines_reference [itemA, itemB]).1 (by decide)

/-- C6 (amended): `_render_items` is idempotent on every input whose item
ids are pairwise distinct. -/
theorem C6_idempotent_on_distinct_ids (items : List Item)
    (hnd : (items.map Item.id).Nodup) :
    render_items (render_items items) = render_items items := by
  have hnd_out : ((render_items items).map Item.id).Nodup :=
    List.Nodup.sublist (List.Sublist.map Item.id (render_items_sublist items)) hnd
  have hpair : (render_items items).Pairwise (fun t u => conflicts t u = false) := by
    rw [render_items_eq_resolve_spec items hnd]
    exact resolve_spec_pairwise items
  exact (render_items_eq_resolve_spec _ hnd_out).trans (resolve_spec_fixed _ hpair)

/-- C6 counterexample: two items sharing id 7 (so the scan's `item == temp`
check skips them for each other) plus a later conflicting item leave the
output `[itemSameId2, itemLater]`, which still contains a conflict; resolving
it again shrinks it to `[itemLater]`. -/
theorem C6_counterexample :
    render_items (render_items [itemSameId1, itemSameId2, itemLater])
      ≠ render_items [itemSameId1, itemSameId2, itemLater] := by
  decide

theorem C6_witness :
    render_items (render_items [itemA, itemB]) = render_items [itemA, itemB] :=
  C6_idempotent_on_distinct_ids [itemA, itemB] (by decide)

/-- C7 (amended): on inputs whose item ids are pairwise distinct, the output
of `_render_items` is pairwise conflict-free (the conflict test is symmetric,
so one orientation suffices). -/
theorem C7_output_conflict_free (items : List Item)
    (hnd : (items.map Item.id).Nodup) :
    (render_items items).Pairwise (fun t u => conflicts t u = false) := by
  rw [render_items_eq_resolve_spec items hnd]
  exact resolve_spec_pairwise items

/-- C7 counterexample: two distinct items sharing id 9 both survive (the
scan never compares items with equal ids) yet conflict on `zoneA`, so the
output is not pairwise conflict-free. -/
theorem C7_counterexample :
    itemQ1 ∈ render_items [itemQ1, itemQ2]
    ∧ itemQ2 ∈ render_items [itemQ1, itemQ2]
    ∧ itemQ1 ≠ itemQ2
    ∧ conflicts itemQ1 itemQ2 = true := by
  decide

theorem C7_witness :
    (render_items [itemA, itemB]).Pairwise (fun t u => conflicts t u = false) :=
  C7_output_conflict_free [itemA, itemB] (by decide)

/-! ### Claims C4, C5: the layer-ordering step -/

theorem mem_order_layers_iff (pa : PetAppearance) (resolved : List Item)
    (layer : AppearanceLayer) :
    layer ∈ order_layers pa resolved ↔ layer ∈ visible_layers pa resolved :=
  (List.perm_insertionSort depthLE _).mem_iff

/-- C4: no layer whose zone is in the combined restricted set (base
appearance restrictions plus every resolved item's restrictions) survives
the layer-ordering step, regardless of which contributor restricted it. -/
theorem C4_restricted_zones_filtered (pa : PetAppearance) (resolved : List Item)
    (layer : AppearanceLayer) (h : layer ∈ order_layers pa resolved) :
    zoneIdMem layer.zone (all_restricted_zones pa resolved) = false := by
  have h' := (mem_order_layers_iff pa resolved layer).mp h
  have := (List.mem_filter.mp h').2
  simpa using this

theorem C4_witness :
    zoneIdMem layerHat.zone (all_restricted_zones paRestricting []) = false :=
  C4_restricted_zones_filtered paRestricting [] layerHat (by decide)

theorem filter_depth_orderedInsert (d : Nat) (x : AppearanceLayer)
    (l : List AppearanceLayer) :
    (List.orderedInsert depthLE x l).filter (fun a => a.zone.depth == d)
      = ((x :: l).filter (fun a => a.zone.depth == d)) := by
  induction l with
  | nil => rfl
  | cons y ys ih =>
    rw [List.orderedInsert]
    by_cases hr : depthLE x y
    · rw [if_pos hr]
    · rw [if_neg hr]
      have hlt : y.zone.depth < x.zone.depth := Nat.lt_of_not_le hr
      by_cases hx : x.zone.depth = d
      · have hy : (y.zone.depth == d) = false := by
          rw [beq_eq_false_iff_ne]
          intro h
          rw [hx] at hlt
          rw [h] at hlt
          exact Nat.lt_irrefl d hlt
        rw [List.filter_cons, List.filter_cons, hy, ih, List.filter_cons]
        simp [hx, hy]
      · have hx' : (x.zone.depth == d) = false := beq_eq_false_iff_ne.mpr hx
        rw [List.filter_cons, List.filter_cons, ih, List.filter_cons]
        simp [hx', List.filter_cons]

theorem filter_depth_insertionSort (d : Nat) (l : List AppearanceLayer) :
    (List.insertionSort depthLE l).filter (fun a => a.zone.depth == d)
      = l.filter (fun a => a.zone.depth == d) := by
  induction l with
  | nil => rfl
  | cons x xs ih =>
    rw [List.insertionSort, filter_depth_orderedInsert,
      List.filter_cons, List.filter_cons, ih]

/-- C5: the ordered layer output is sorted non-decreasing by zone depth, and
for each depth value the layers at that depth appear in exactly the order
they have in the concatenation of the base appearance's layers and the
resolved items' layers (visibility-filtered), i.e. ties preserve input
order. -/
theorem C5_sorted_by_depth_and_stable (pa : PetAppearance) (resolved : List Item) :
    List.Sorted depthLE (order_layers pa resolved)
    ∧ ∀ d : Nat,
      (order_layers pa resolved).filter (fun l => l.zone.depth == d)
        = (all_layers pa resolved).filter
            (fun l => (l.zone.depth == d)
              && !(zoneIdMem l.zone (all_restricted_zones pa resolved))) := by
  constructor
  · exact List.sorted_insertionSort depthLE _
  · intro d
    rw [order_layers, filter_depth_insertionSort]
    unfold visible_layers
    rw [List.filter_filter]

/-! ### Claim C8: pose resolution -/

/-- C8: `valid_poses` returns exactly the fallback table's entry for the
desired pose, filtered to the poses `p` with
`(capability_mask &&& p) == p`, in table order; in particular it is empty
when no candidate's bits are contained in the mask. -/
theorem C8_valid_poses_is_filtered_table (pet : Neopet) (pose : Nat)
    (h : pose ≠ 0) :
    pet.valid_poses (some pose)
      = (pet.closest_poses pose).filter
          (fun p => pet.valid_poses_mask &&& p == p)
    ∧ ((∀ p ∈ pet.closest_poses pose, ¬(pet.valid_poses_mask &&& p = p)) →
        pet.valid_poses (some pose) = []) := by
  have heff : pet.effective_pose (some pose) = pose := by
    simp [Neopet.effective_pose, h]
  constructor
  · rw [Neopet.valid_poses, heff]
    rfl
  · intro hall
    rw [Neopet.valid_poses, heff, List.filter_eq_nil_iff]
    intro p hp
    simp only [Neopet.check, beq_iff_eq]
    exact hall p hp

theorem C8_witness : petNoBits.valid_poses (some 1) = [] :=
  (C8_valid_poses_is_filtered_table petNoBits 1 (by decide)).2 (by decide)

/-! ### Claim C9: the missing-appearance error path -/

theorem charsAgree_append (s t : List Char) : charsAgree s (s ++ t) = true := by
  induction s with
  | nil => rfl
  | cons a as ih => simp [charsAgree, ih]

theorem charsSomewhere_append_mid (pre sub post : List Char) :
    charsSomewhere sub (pre ++ (sub ++ post)) = true := by
  induction pre with
  | nil =>
    rw [List.nil_append]
    cases h : sub ++ post with
    | nil =>
      have : sub = [] := (List.append_eq_nil.mp h).1
      simp [charsSomewhere, this]
    | cons b bs =>
      rw [charsSomewhere, ← h, charsAgree_append]
      rfl
  | cons a pre ih =>
    rw [List.cons_append, charsSomewhere, ih]
    simp

theorem mentions_true_of_parts (m b : String) (pre post : List Char)
    (h : m.data = pre ++ (b.data ++ post)) : mentions m b = true := by
  unfold mentions
  rw [h]
  exact charsSomewhere_append_mid pre b.data post

/-- C9 (amended): `_render_layers` raises `MissingPetAppearance` exactly
when pose resolution yields no valid pose, or no appearance record matches
the resolved pose; no layer list is produced in those cases.  The message
carries the species and color identifiers — but not the attempted pose. -/
theorem C9_missing_appearance_exactly (pet : Neopet) (op : Option Nat) :
    (pet.valid_poses op = [] →
      pet.render_layers op
        = .error (.missingPetAppearance (msg_no_poses pet.species_id pet.color_id)))
    ∧ (∀ p rest, pet.valid_poses op = p :: rest →
        pet.get_pet_appearance p = none →
        pet.render_layers op
          = .error (.missingPetAppearance (msg_no_appearance pet.species_id pet.color_id)))
    ∧ (∀ p rest pa, pet.valid_poses op = p :: rest →
        pet.get_pet_appearance p = some pa →
        pet.render_layers op = .ok (order_layers pa (render_items pet.items)))
    ∧ mentions (msg_no_poses pet.species_id pet.color_id) (toString pet.species_id) = true
    ∧ mentions (msg_no_poses pet.species_id pet.color_id) (toString pet.color_id) = true
    ∧ mentions (msg_no_appearance pet.species_id pet.color_id) (toString pet.species_id) = true
    ∧ mentions (msg_no_appearance pet.species_id pet.color_id) (toString pet.color_id) = true := by
  refine ⟨?_, ?_, ?_, ?_, ?_, ?_, ?_⟩
  · intro h
    simp [Neopet.render_layers, h]
  · intro p rest h hpa
    simp [Neopet.render_layers, h, hpa]
  · intro p rest pa h hpa
    simp [Neopet.render_layers, h, hpa]
  · exact mentions_true_of_parts _ _ ("Pet Appearance <\x22").data
      (("-" ++ toString pet.color_id
        ++ "\x22> does not exist with any poses.").data)
      (by simp [msg_no_poses, String.data_append, List.append_assoc])
  · exact mentions_true_of_parts _ _
      (("Pet Appearance <\x22" ++ toString pet.species_id ++ "-").data)
      (("\x22> does not exist with any poses." : String).data)
      (by simp [msg_no_poses, String.data_append, List.append_assoc])
  · exact mentions_true_of_parts _ _ ("Pet Appearance <\x22").data
      (("-" ++ toString pet.color_id ++ "\x22> does not exist.").data)
      (by simp [msg_no_appearance, String.data_append, List.append_assoc])
  · exact mentions_true_of_parts _ _
      (("Pet Appearance <\x22" ++ toString pet.species_id ++ "-").data)
      (("\x22> does not exist." : String).data)
      (by simp [msg_no_appearance, String.data_append, List.append_assoc])

/-- C9 counterexample: for `petNoPoses` the attempted pose is 64, the error
is raised, and the raised error's message does not mention the pose
identifier anywhere — refuting "carrying the ... pose identifiers". -/
theorem C9_counterexample :
    petNoPoses.render_layers none
      = .error (.missingPetAppearance (msg_no_poses 1 2))
    ∧ petNoPoses.pose = 64
    ∧ mentions (msg_no_poses 1 2) (toString petNoPoses.pose) = false :=
  ⟨rfl, rfl, by decide⟩

theorem C9_witness :
    petNoPoses.render_layers none
      = .error (.missingPetAppearance
          (msg_no_poses petNoPoses.species_id petNoPoses.color_id)) :=
  (C9_missing_appearance_exactly petNoPoses none).1 rfl

/-! ### Claims C3, C10: the compositing loop -/

/-- C10: a layer whose bytes decode to the degenerate 1-bit mode is skipped
as a no-op: the blend step succeeds, the canvas is left exactly as it was,
and the render does not fail because of it. -/
theorem C10_degenerate_mode_skipped (species_id color_id pose : Nat)
    (st : BlendState) (layer : AppearanceLayer) (img : PILImage)
    (h : img.mode = "1") :
    blendStep species_id color_id pose st (layer, .decodes img)
      = .ok { st with foreground := some img } := by
  simp [blendStep, h]

theorem C10_witness :
    blendStep 1 2 3 ⟨[], none⟩ (layerHat, .decodes ⟨"1", "bits"⟩)
      = .ok ⟨[], some ⟨"1", "bits"⟩⟩ :=
  C10_degenerate_mode_skipped 1 2 3 ⟨[], none⟩ layerHat ⟨"1", "bits"⟩ rfl

/-- C3 (code bug): for `petComposite`, whose third layer's bytes fail to
decode, `render` does not fail at all.  The pending `BrokenAssetImage` is
discarded by the `continue` in the `finally` block (the previous foreground
has mode `"1"`), and a partially composited image — only the first layer —
is delivered to the sink. -/
theorem C3_decode_failure_swallowed :
    Neopet.render petComposite fetchComposite none
      = .ok [⟨"RGBA", "bg-pixels"⟩] := by
  rfl

end DTI
